import Mathlib

/-!
Verification of the Taskflow vector-service against its specification.

The development shallowly embeds the two source files of the repository:

* `vector-service/cache_manager.py` — `VectorCacheManager`, a Redis-backed
  cache for embeddings and search results.  The Redis store is modelled as an
  association list from keys to `(payload, expiry)` entries, with an explicit
  `now` clock; `hashlib.md5` is modelled bit-exactly below.
* `vector-service/vector_search.py` — `VectorSearchService`, the
  embedding/backfill/nearest-neighbour pipeline.  The external embedding model
  (`SentenceTransformer.encode`) and the pgvector distance operator are taken
  as function parameters; the `tasks` table is a list of rows; store-level
  exceptions are injected through an explicit failure schedule.

Machine integers are `Nat` with explicit `% 2 ^ 32` where the source relies on
32-bit wrap-around (inside MD5 only).  Floating-point vector components are
modelled as `ℚ`.
-/

namespace VectorService

/-! ### UTF-8 and MD5, modelling `text.encode()` and `hashlib.md5(...).hexdigest()` -/

/-- UTF-8 encoding of one Unicode code point, as Python `str.encode()`
produces for each character. -/
def utf8Bytes (n : Nat) : List Nat :=
  if n < 0x80 then [n]
  else if n < 0x800 then [0xc0 + n / 0x40, 0x80 + n % 0x40]
  else if n < 0x10000 then
    [0xe0 + n / 0x1000, 0x80 + n / 0x40 % 0x40, 0x80 + n % 0x40]
  else
    [0xf0 + n / 0x40000, 0x80 + n / 0x1000 % 0x40, 0x80 + n / 0x40 % 0x40, 0x80 + n % 0x40]

/-- Model of Python `text.encode()`: the UTF-8 bytes of the string. -/
def strBytes (s : String) : List Nat :=
  s.data.flatMap (fun c => utf8Bytes c.toNat)

/-- Truncation to a 32-bit word. -/
def w32 (n : Nat) : Nat := n % 2 ^ 32

/-- 32-bit left rotation (for `x < 2 ^ 32`). -/
def rotl32 (x s : Nat) : Nat := w32 (x * 2 ^ s + x / 2 ^ (32 - s))

/-- The 64 MD5 round constants `⌊|sin (i+1)| · 2³²⌋` (RFC 1321). -/
def md5K : List Nat :=
  [0xd76aa478, 0xe8c7b756, 0x242070db, 0xc1bdceee, 0xf57c0faf, 0x4787c62a,
   0xa8304613, 0xfd469501, 0x698098d8, 0x8b44f7af, 0xffff5bb1, 0x895cd7be,
   0x6b901122, 0xfd987193, 0xa679438e, 0x49b40821, 0xf61e2562, 0xc040b340,
   0x265e5a51, 0xe9b6c7aa, 0xd62f105d, 0x02441453, 0xd8a1e681, 0xe7d3fbc8,
   0x21e1cde6, 0xc33707d6, 0xf4d50d87, 0x455a14ed, 0xa9e3e905, 0xfcefa3f8,
   0x676f02d9, 0x8d2a4c8a, 0xfffa3942, 0x8771f681, 0x6d9d6122, 0xfde5380c,
   0xa4beea44, 0x4bdecfa9, 0xf6bb4b60, 0xbebfbc70, 0x289b7ec6, 0xeaa127fa,
   0xd4ef3085, 0x04881d05, 0xd9d4d039, 0xe6db99e5, 0x1fa27cf8, 0xc4ac5665,
   0xf4292244, 0x432aff97, 0xab9423a7, 0xfc93a039, 0x655b59c3, 0x8f0ccc92,
   0xffeff47d, 0x85845dd1, 0x6fa87e4f, 0xfe2ce6e0, 0xa3014314, 0x4e0811a1,
   0xf7537e82, 0xbd3af235, 0x2ad7d2bb, 0xeb86d391]

/-- The 64 MD5 per-round shift amounts (RFC 1321). -/
def md5S : List Nat :=
  [7, 12, 17, 22, 7, 12, 17, 22, 7, 12, 17, 22, 7, 12, 17, 22,
   5, 9, 14, 20, 5, 9, 14, 20, 5, 9, 14, 20, 5, 9, 14, 20,
   4, 11, 16, 23, 4, 11, 16, 23, 4, 11, 16, 23, 4, 11, 16, 23,
   6, 10, 15, 21, 6, 10, 15, 21, 6, 10, 15, 21, 6, 10, 15, 21]

/-- MD5 padding: append `0x80`, zero bytes up to 56 mod 64, then the message
bit length as a little-endian 64-bit quantity. -/
def md5Pad (msg : List Nat) : List Nat :=
  let z := (120 - (msg.length + 1) % 64) % 64
  let bitLen := 8 * msg.length % 2 ^ 64
  msg ++ [0x80] ++ List.replicate z 0 ++
    (List.range 8).map (fun i => bitLen / 2 ^ (8 * i) % 256)

/-- Word `j` of a 64-byte block, read little-endian. -/
def leWord (block : List Nat) (j : Nat) : Nat :=
  block.getD (4 * j) 0 + 256 * block.getD (4 * j + 1) 0 +
    65536 * block.getD (4 * j + 2) 0 + 16777216 * block.getD (4 * j + 3) 0

/-- The MD5 nonlinear function of round `i` (bitwise on 32-bit words). -/
def md5F (i b c d : Nat) : Nat :=
  if i < 16 then (b &&& c) ||| ((b ^^^ 0xffffffff) &&& d)
  else if i < 32 then (d &&& b) ||| ((d ^^^ 0xffffffff) &&& c)
  else if i < 48 then b ^^^ c ^^^ d
  else c ^^^ (b ||| (d ^^^ 0xffffffff))

/-- The MD5 message-word index of round `i`. -/
def md5G (i : Nat) : Nat :=
  if i < 16 then i
  else if i < 32 then (5 * i + 1) % 16
  else if i < 48 then (3 * i + 5) % 16
  else 7 * i % 16

/-- One MD5 round on the state `(a, b, c, d)`. -/
def md5Round (block : List Nat) (st : Nat × Nat × Nat × Nat) (i : Nat) :
    Nat × Nat × Nat × Nat :=
  let t := w32 (st.1 + md5F i st.2.1 st.2.2.1 st.2.2.2 + md5K.getD i 0 +
    leWord block (md5G i))
  (st.2.2.2, w32 (st.2.1 + rotl32 t (md5S.getD i 0)), st.2.1, st.2.2.1)

/-- Process one 64-byte block. -/
def md5Block (st : Nat × Nat × Nat × Nat) (block : List Nat) :
    Nat × Nat × Nat × Nat :=
  let r := (List.range 64).foldl (md5Round block) st
  (w32 (st.1 + r.1), w32 (st.2.1 + r.2.1), w32 (st.2.2.1 + r.2.2.1),
    w32 (st.2.2.2 + r.2.2.2))

/-- Accumulator-based chunking into 64-byte blocks (structural, so it reduces
in the kernel).  `acc` holds the current partial block in reverse. -/
def toBlocksAux : List Nat → List Nat → List (List Nat)
  | [], acc => if acc.isEmpty then [] else [acc.reverse]
  | x :: xs, acc =>
    if acc.length = 63 then (acc.reverse ++ [x]) :: toBlocksAux xs []
    else toBlocksAux xs (x :: acc)

/-- Split a byte list into 64-byte blocks. -/
def toBlocks (l : List Nat) : List (List Nat) := toBlocksAux l []

/-- The four 32-bit words of the MD5 digest of a byte string. -/
def md5Words (msg : List Nat) : Nat × Nat × Nat × Nat :=
  (toBlocks (md5Pad msg)).foldl md5Block (0x67452301, 0xefcdab89, 0x98badcfe, 0x10325476)

/-- Lowercase hexadecimal digit for `n < 16`. -/
def hexChar (n : Nat) : Char := if n < 10 then Char.ofNat (48 + n) else Char.ofNat (87 + n)

/-- Two lowercase hex characters of a byte. -/
def byteHex (b : Nat) : List Char := [hexChar (b / 16 % 16), hexChar (b % 16)]

/-- The four bytes of a 32-bit word, little-endian. -/
def wordBytesLE (w : Nat) : List Nat := [w % 256, w / 256 % 256, w / 65536 % 256, w / 16777216 % 256]

/-- Lowercase hex digest of the MD5 of a byte string. -/
def md5Hex (msg : List Nat) : String :=
  String.mk (([(md5Words msg).1, (md5Words msg).2.1, (md5Words msg).2.2.1,
    (md5Words msg).2.2.2].flatMap wordBytesLE).flatMap byteHex)

/-- Model of Python `hashlib.md5(text.encode()).hexdigest()`. -/
def md5HexOfString (text : String) : String := md5Hex (strBytes text)

/-! ### Cache keys: `VectorCacheManager._generate_cache_key` -/

/-- Model of `VectorCacheManager._generate_cache_key(text, prefix="embedding")`:
`hashlib.md5(text.encode()).hexdigest()` glued after the kind and a colon. -/
def generate_cache_key (text : String) (kind : String := "embedding") : String :=
  kind ++ ":" ++ md5HexOfString text

/-! ### JSON serialization, modelling `json.dumps(..., sort_keys=True)`

`get_search_results` / `set_search_results` canonicalize
`\x7b"query": query, "filters": filters or \x7b\x7d\x7d` with
`json.dumps(cache_data, sort_keys=True)` before hashing.  Filter values are
modelled as simple JSON scalars; a filter mapping is an association list of
string keys in enumeration order, as a Python `dict` is. -/

/-- A JSON scalar value usable as a filter value. -/
inductive JVal where
  | str (s : String)
  | num (n : Int)
  | boolean (b : Bool)
  | null
deriving DecidableEq

/-- Four lowercase hex characters of `n < 2 ^ 16` (for `\uXXXX` escapes). -/
def hex4 (n : Nat) : List Char :=
  [hexChar (n / 4096 % 16), hexChar (n / 256 % 16), hexChar (n / 16 % 16), hexChar (n % 16)]

/-- JSON escaping of one character, as Python `json.dumps` (with its default
`ensure_ascii=True`) emits it. -/
def jsonEscapeChar (c : Char) : List Char :=
  let n := c.toNat
  if n = 34 then ['\\', '"']
  else if n = 92 then ['\\', '\\']
  else if n = 10 then ['\\', 'n']
  else if n = 9 then ['\\', 't']
  else if n = 13 then ['\\', 'r']
  else if n = 8 then ['\\', 'b']
  else if n = 12 then ['\\', 'f']
  else if n < 32 ∨ n > 126 then
    if n < 0x10000 then '\\' :: 'u' :: hex4 n
    else ('\\' :: 'u' :: hex4 (0xd800 + (n - 0x10000) / 0x400)) ++
      ('\\' :: 'u' :: hex4 (0xdc00 + (n - 0x10000) % 0x400))
  else [c]

/-- JSON string literal for `s`. -/
def jsonStr (s : String) : String :=
  "\"" ++ String.mk (s.data.flatMap jsonEscapeChar) ++ "\""

/-- Serialization of a JSON scalar. -/
def JVal.dump : JVal → String
  | .str s => jsonStr s
  | .num n => toString n
  | .boolean b => if b then "true" else "false"
  | .null => "null"

/-- A filter mapping: string keys to JSON scalars, in enumeration order. -/
abbrev Filters := List (String × JVal)

/-- Serialization of a JSON object with `sort_keys=True`: entries sorted by
key, joined with Python's default `", "` / `": "` separators. -/
def dumpObjSorted (fs : Filters) : String :=
  let sorted := fs.mergeSort (fun a b => decide (a.1 ≤ b.1))
  "\x7b" ++ String.intercalate ", " (sorted.map (fun p => jsonStr p.1 ++ ": " ++ p.2.dump)) ++ "\x7d"

/-- Model of `json.dumps(\x7b"query": query, "filters": filters or \x7b\x7d\x7d,
sort_keys=True)`: at the top level the sorted key order is `"filters"` then
`"query"`; a `none` filter argument (Python `None`) falls back to the empty
mapping through `filters or \x7b\x7d`. -/
def searchCacheStr (query : String) (filters : Option Filters) : String :=
  "\x7b\"filters\": " ++ dumpObjSorted (filters.getD []) ++ ", \"query\": " ++
    jsonStr query ++ "\x7d"

/-- The cache key both `get_search_results` and `set_search_results` derive:
`_generate_cache_key(cache_str, "search")`. -/
def searchCacheKey (query : String) (filters : Option Filters) : String :=
  generate_cache_key (searchCacheStr query filters) "search"

/-! ### The Redis store and `VectorCacheManager`

The binary key-value store is an association list from keys to entries that
carry a payload and an absolute expiry instant; an explicit `now : Nat` clock
stands for real time.  Payloads remember which serializer wrote them
(`pickle.dumps` for embeddings, `json.dumps(...).encode()` for result lists);
deserializing with the wrong reader raises in Python and is caught, which the
read operations model by returning `none` on a payload of the other shape. -/

/-- One ranked search hit, as the dicts built by `vector_search` and cached by
the search-result cache. -/
structure SearchResult where
  id : Nat
  title : String
  description : Option String
  status : String
  similarity : ℚ
deriving DecidableEq

/-- A serialized cache payload. -/
inductive Payload where
  | emb (v : List ℚ)
  | results (r : List SearchResult)
deriving DecidableEq

/-- A stored cache entry: payload plus absolute expiry instant. -/
structure CacheEntry where
  value : Payload
  expiresAt : Nat
deriving DecidableEq

/-- The key-value store contents. -/
abbrev Store := List (String × CacheEntry)

/-- `GET key`: the payload under `key` if present and not expired. -/
def storeGet (s : Store) (now : Nat) (k : String) : Option Payload :=
  match s.lookup k with
  | some e => if now < e.expiresAt then some e.value else none
  | none => none

/-- `SETEX key ttl value`. -/
def storeSetex (s : Store) (now : Nat) (k : String) (ttl : Nat) (v : Payload) : Store :=
  (k, ⟨v, now + ttl⟩) :: s.filter (fun p => p.1 != k)

/-- `pat` is a leading segment of `s` (checked on the character lists). -/
def charsLead : List Char → List Char → Bool
  | [], _ => true
  | _ :: _, [] => false
  | a :: as, b :: bs => a == b && charsLead as bs

/-- String version of `charsLead`; models the glob `pat*` of Redis `KEYS`. -/
def strLeads (pat s : String) : Bool := charsLead pat.data s.data

/-- `KEYS pat*`: all live keys matching the glob. -/
def storeScanKeys (s : Store) (now : Nat) (pat : String) : List String :=
  (s.filter (fun p => strLeads pat p.1 && decide (now < p.2.expiresAt))).map Prod.fst

/-- `DEL k₁ k₂ …`. -/
def storeDelete (s : Store) (ks : List String) : Store :=
  s.filter (fun p => !(ks.contains p.1))

/-- Model of `VectorCacheManager`: after `__init__`, `redis_client` is the
connected client or Python `None`; only connectivity is observable. -/
structure VectorCacheManager where
  redis_client : Bool
deriving DecidableEq

/-- Model of `VectorCacheManager.__init__`: `pingOk = false` models
`redis.ConnectionError` raised by the `ping()` probe, after which the client
is replaced by `None` for the lifetime of the manager. -/
def mkVectorCacheManager (pingOk : Bool) : VectorCacheManager :=
  { redis_client := pingOk }

/-- Model of `VectorCacheManager.get_embedding`. -/
def get_embedding (m : VectorCacheManager) (s : Store) (now : Nat)
    (text : String) : Option (List ℚ) :=
  if !m.redis_client then none
  else
    match storeGet s now (generate_cache_key text) with
    | some (.emb v) => some v
    | some _ => none
    | none => none

/-- Model of `VectorCacheManager.set_embedding` (default TTL 3600 s). -/
def set_embedding (m : VectorCacheManager) (s : Store) (now : Nat)
    (text : String) (v : List ℚ) (ttl : Nat := 3600) : Store :=
  if !m.redis_client then s
  else storeSetex s now (generate_cache_key text) ttl (.emb v)

/-- Model of `VectorCacheManager.get_search_results`. -/
def get_search_results (m : VectorCacheManager) (s : Store) (now : Nat)
    (query : String) (filters : Option Filters) : Option (List SearchResult) :=
  if !m.redis_client then none
  else
    match storeGet s now (searchCacheKey query filters) with
    | some (.results r) => some r
    | some _ => none
    | none => none

/-- Model of `VectorCacheManager.set_search_results` (default TTL 600 s). -/
def set_search_results (m : VectorCacheManager) (s : Store) (now : Nat)
    (query : String) (results : List SearchResult) (filters : Option Filters)
    (ttl : Nat := 600) : Store :=
  if !m.redis_client then s
  else storeSetex s now (searchCacheKey query filters) ttl (.results results)

/-- Model of `VectorCacheManager.invalidate_search_cache`: scan
`KEYS "search:*"`, then delete the batch when it is nonempty. -/
def invalidate_search_cache (m : VectorCacheManager) (s : Store) (now : Nat) : Store :=
  if !m.redis_client then s
  else
    let ks := storeScanKeys s now "search:"
    if ks.isEmpty then s else storeDelete s ks

/-! ### `VectorSearchService`

External collaborators become parameters: `encode` models
`self.model.encode(text).tolist()` (`none` = the model call raised), `dist`
models the pgvector `<->` operator, and the `tasks` table is a list of rows.
Store-level exceptions are injected through `failAt`, the index of the cursor
operation that raises (`0` = the `SELECT`, then one index per `UPDATE`, last
the `commit`). -/

/-- A row of the `tasks` table. -/
structure Task where
  id : Nat
  title : String
  description : Option String
  status : String
  embedding : Option (List ℚ)
deriving DecidableEq

/-- An established database connection (opaque handle). -/
structure DBConnection where
  connId : Nat
deriving DecidableEq

/-- The service as constructed: it holds the live connection. -/
structure VectorSearchService where
  connection : DBConnection
deriving DecidableEq

/-- Model of `VectorSearchService.connect_to_db`: `attempt` is the outcome of
`psycopg2.connect` (`none` = it raised).  The `except` clause logs and
re-`raise`s, so failure propagates as `Except.error`. -/
def connect_to_db (attempt : Option DBConnection) : Except String DBConnection :=
  match attempt with
  | some c => Except.ok c
  | none => Except.error "Error connecting to database"

/-- Model of `VectorSearchService.__init__`, which calls `connect_to_db`
unguarded: a connect failure escapes the constructor. -/
def mkVectorSearchService (attempt : Option DBConnection) :
    Except String VectorSearchService :=
  match connect_to_db attempt with
  | .ok c => .ok { connection := c }
  | .error e => .error e

/-- Model of `VectorSearchService.generate_embedding`: empty text is rejected
before the model is called (`if not text: return None`); a model exception is
caught and also yields `None`. -/
def generate_embedding (encode : String → Option (List ℚ)) (text : String) :
    Option (List ℚ) :=
  if text.isEmpty then none
  else encode text

/-- Python truthiness of an optional list (`if not embedding` is taken both
for `None` and for a zero-length list). -/
def embTruthy : Option (List ℚ) → Bool
  | some (_ :: _) => true
  | _ => false

/-- The text embedded for a task row:
`f"\x7btitle\x7d. \x7bdescription\x7d" if description else title`. -/
def taskText (title : String) (description : Option String) : String :=
  match description with
  | some d => if d.isEmpty then title else title ++ ". " ++ d
  | none => title

/-- Whether the generator produces a truthy embedding for a task row. -/
def genTruthy (encode : String → Option (List ℚ)) (t : Task) : Bool :=
  embTruthy (generate_embedding encode (taskText t.title t.description))

/-- The rows selected by `SELECT … WHERE embedding IS NULL`. -/
def missingTasks (db : List Task) : List Task :=
  db.filter (fun t => t.embedding.isNone)

/-- How many selected rows the no-failure run updates. -/
def truthyCount (encode : String → Option (List ℚ)) (ts : List Task) : Nat :=
  (ts.filter (genTruthy encode)).length

/-- Whether the cursor operation with index `i` raises under schedule `failAt`. -/
def opFails (failAt : Option Nat) (i : Nat) : Bool :=
  match failAt with
  | some n => n == i
  | none => false

/-- Effect of `UPDATE tasks SET embedding = e WHERE id = taskId` on the
uncommitted transaction state. -/
def applyUpdate (db : List Task) (taskId : Nat) (e : List ℚ) : List Task :=
  db.map (fun t => if t.id = taskId then { t with embedding := some e } else t)

/-- The `for` loop of `update_all_embeddings` over the selected rows, carrying
the uncommitted transaction state, the running count and the next cursor
operation index; `none` means an `UPDATE` raised. -/
def backfillLoop (encode : String → Option (List ℚ)) (failAt : Option Nat) :
    List Task → List Task → Nat → Nat → Option (List Task × Nat × Nat)
  | [], txDB, count, opIdx => some (txDB, count, opIdx)
  | t :: rest, txDB, count, opIdx =>
    if genTruthy encode t then
      if opFails failAt opIdx then none
      else backfillLoop encode failAt rest
        (applyUpdate txDB t.id
          ((generate_embedding encode (taskText t.title t.description)).getD []))
        (count + 1) (opIdx + 1)
    else backfillLoop encode failAt rest txDB count opIdx

/-- Model of `VectorSearchService.update_all_embeddings`: returns the
committed table and the reported count.  Any cursor exception reaches the
`except` clause, which rolls the transaction back and returns `0`. -/
def update_all_embeddings (encode : String → Option (List ℚ)) (db : List Task)
    (failAt : Option Nat) : List Task × Nat :=
  if opFails failAt 0 then (db, 0)
  else
    match backfillLoop encode failAt (missingTasks db) db 0 1 with
    | none => (db, 0)
    | some (txDB, count, opIdx) =>
      if opFails failAt opIdx then (db, 0)
      else (txDB, count)

/-- The cumulative effect of the loop's `UPDATE`s on the transaction state
(used to characterize the committed result of a failure-free run). -/
def applyAll (encode : String → Option (List ℚ)) : List Task → List Task → List Task
  | txDB, [] => txDB
  | txDB, t :: rest =>
    if genTruthy encode t then
      applyAll encode
        (applyUpdate txDB t.id
          ((generate_embedding encode (taskText t.title t.description)).getD []))
        rest
    else applyAll encode txDB rest

/-- The `ORDER BY distance` comparison between two non-null rows. -/
def distLE (dist : List ℚ → List ℚ → ℚ) (qe : List ℚ) (a b : Task) : Bool :=
  decide (dist qe (a.embedding.getD []) ≤ dist qe (b.embedding.getD []))

/-- Model of `VectorSearchService.vector_search`: the nearest-neighbour query
`SELECT … WHERE embedding IS NOT NULL ORDER BY distance LIMIT limit`, each
returned distance converted to the similarity `1 - d`.  Equal distances keep
the store's row order (stable sort). -/
def vector_search (encode : String → Option (List ℚ))
    (dist : List ℚ → List ℚ → ℚ) (db : List Task) (query : String)
    (limit : Nat := 5) : List SearchResult :=
  let qe := generate_embedding encode query
  if !(embTruthy qe) then []
  else
    let q := qe.getD []
    let rows := db.filter (fun t => t.embedding.isSome)
    ((rows.mergeSort (distLE dist q)).take limit).map (fun t =>
      { id := t.id, title := t.title, description := t.description,
        status := t.status, similarity := 1 - dist q (t.embedding.getD []) })

/-- A lowercase hexadecimal character. -/
def isHexDigitChar (c : Char) : Prop := ('0' ≤ c ∧ c ≤ '9') ∨ ('a' ≤ c ∧ c ≤ 'f')

/-- Concrete three-row `tasks` fixture: two rows with missing embeddings (one
of which the fixture generator rejects) and one already-stored row. -/
def fixtureDB : List Task :=
  [⟨1, "walk dog", none, "open", none⟩, ⟨2, "bad task", none, "open", none⟩,
   ⟨3, "done", none, "open", some [5]⟩]

/-- Concrete fixture generator: fails on the text `"bad task"`, otherwise
produces a one-component vector. -/
def fixtureEncode : String → Option (List ℚ) :=
  fun s => if s = "bad task" then none else some [1]

/-! ## Theorems -/

set_option maxRecDepth 100000 in
/-- Sanity check of the MD5 embedding against the RFC 1321 test suite. -/
theorem md5_rfc1321_test_vectors :
    md5HexOfString "" = "d41d8cd98f00b204e9800998ecf8427e" ∧
    md5HexOfString "abc" = "900150983cd24fb0d6963f7d28e17f72" := by
  constructor <;> decide

instance (c : Char) : Decidable (isHexDigitChar c) := by
  unfold isHexDigitChar; exact inferInstance

theorem hexChar_isHexDigit : ∀ n, n < 16 → isHexDigitChar (hexChar n) := by decide

theorem byteHex_mem {c : Char} {b : Nat} (hc : c ∈ byteHex b) : isHexDigitChar c := by
  simp only [byteHex, List.mem_cons, List.not_mem_nil, or_false] at hc
  rcases hc with rfl | rfl <;>
    exact hexChar_isHexDigit _ (Nat.mod_lt _ (by norm_num))

theorem md5Hex_length (msg : List Nat) : (md5Hex msg).length = 32 := by
  simp [md5Hex, String.length, wordBytesLE, byteHex]

theorem md5Hex_isHex (msg : List Nat) : ∀ c ∈ (md5Hex msg).data, isHexDigitChar c := by
  intro c hc
  simp only [md5Hex] at hc
  rcases List.mem_flatMap.1 hc with ⟨b, _, hb⟩
  exact byteHex_mem hb

/-- C4: cache-key derivation is a pure total function over every string input
and kind — calling it twice with the same text and kind yields the identical
key, it never fails or has side effects, and its output is exactly
`"(kind):(hex-digest)"` where the hex digest has the 32 lowercase hex
characters of the 128-bit MD5 hash of the UTF-8 encoded input. -/
theorem C4_cache_key_pure_total_format (text kind : String) :
    generate_cache_key text kind = generate_cache_key text kind ∧
    generate_cache_key text kind = kind ++ ":" ++ md5HexOfString text ∧
    (md5HexOfString text).length = 32 ∧
    (∀ c ∈ (md5HexOfString text).data, isHexDigitChar c) :=
  ⟨rfl, rfl, md5Hex_length _, md5Hex_isHex _⟩

/-- C2: a cache manager constructed while the store is unreachable (the
`ping()` probe raised `redis.ConnectionError`, so `redis_client` was replaced
by `None`) is a permanent no-op: both gets return absent, both sets and the
invalidation leave any store contents untouched, and — being total functions
of the model — none of the operations propagates an exception. -/
theorem C2_degraded_mode_noop (s : Store) (now : Nat) (text query : String)
    (v : List ℚ) (results : List SearchResult) (filters : Option Filters)
    (ttlE ttlS : Nat) :
    get_embedding (mkVectorCacheManager false) s now text = none ∧
    set_embedding (mkVectorCacheManager false) s now text v ttlE = s ∧
    get_search_results (mkVectorCacheManager false) s now query filters = none ∧
    set_search_results (mkVectorCacheManager false) s now query results filters ttlS = s ∧
    invalidate_search_cache (mkVectorCacheManager false) s now = s :=
  ⟨rfl, rfl, rfl, rfl, rfl⟩

/-- C9: unlike the cache store, a backing-store connection failure at
construction is fatal — `connect_to_db` re-raises, the constructor propagates
the error to the caller, and no service value (degraded or otherwise) is ever
produced; a successful connection yields exactly the connected service. -/
theorem C9_db_connect_failure_fatal :
    mkVectorSearchService none = Except.error "Error connecting to database" ∧
    (∀ svc : VectorSearchService, mkVectorSearchService none ≠ Except.ok svc) ∧
    (∀ c : DBConnection, mkVectorSearchService (some c) = Except.ok { connection := c }) :=
  ⟨rfl, fun _ h => Except.noConfusion h, fun _ => rfl⟩

/-- C10: omitting the filter set is equivalent to passing an empty filter set:
`None` and `\x7b\x7d` canonicalize to the same cache string (Python
`filters or \x7b\x7d`), so lookups and writes agree between the two. -/
theorem C10_no_filters_eq_empty_filters (query : String) (m : VectorCacheManager)
    (s : Store) (now : Nat) (results : List SearchResult) (ttl : Nat) :
    searchCacheKey query none = searchCacheKey query (some []) ∧
    get_search_results m s now query none = get_search_results m s now query (some []) ∧
    set_search_results m s now query results none ttl =
      set_search_results m s now query results (some []) ttl :=
  ⟨rfl, rfl, rfl⟩

/-- C7: round-trip through the embedding cache — with a reachable store,
`set_embedding` followed by `get_embedding` of the same text returns the
cached vector unchanged as long as the read happens before the expiry
`now + ttl`. -/
theorem C7_embedding_roundtrip (s : Store) (now ttl tLater : Nat) (text : String)
    (v : List ℚ) (h : tLater < now + ttl) :
    get_embedding (mkVectorCacheManager true)
      (set_embedding (mkVectorCacheManager true) s now text v ttl) tLater text = some v := by
  simp [get_embedding, set_embedding, mkVectorCacheManager, storeGet, storeSetex,
    List.lookup, h]

theorem C7_embedding_roundtrip_witness :
    (3 : Nat) < 0 + 10 ∧
    get_embedding (mkVectorCacheManager true)
      (set_embedding (mkVectorCacheManager true) [] 0 "buy milk" [1, 2] 10) 3 "buy milk" =
      some [1, 2] :=
  ⟨by norm_num, C7_embedding_roundtrip [] 0 10 3 "buy milk" [1, 2] (by norm_num)⟩

/-- C8: whenever embedding generation fails — in particular on the empty
string, which `generate_embedding` rejects before calling the model — the
search returns the empty sequence for every possible store contents (so no
store query can influence the outcome) and, being a total function of the
model, raises nothing. -/
theorem C8_generation_failure_empty_result (encode : String → Option (List ℚ))
    (dist : List ℚ → List ℚ → ℚ) (db : List Task) (query : String) (limit : Nat)
    (h : generate_embedding encode query = none) :
    vector_search encode dist db query limit = [] ∧
    generate_embedding encode "" = none := by
  refine ⟨?_, rfl⟩
  simp [vector_search, h, embTruthy]

/-! Association-list lookup helpers (used for the filter-canonicalization and
invalidation claims). -/

theorem lookup_cons_self {β : Type} (k : String) (v : β) (rest : List (String × β)) :
    List.lookup k ((k, v) :: rest) = some v := by
  simp [List.lookup]

theorem lookup_cons_ne {β : Type} {k pk : String} (hk : k ≠ pk) (pv : β)
    (rest : List (String × β)) :
    List.lookup k ((pk, pv) :: rest) = List.lookup k rest := by
  have h : (k == pk) = false := by simpa using hk
  simp [List.lookup, h]

theorem mem_of_lookup_eq_some {β : Type} {l : List (String × β)} {k : String} {v : β}
    (h : l.lookup k = some v) : (k, v) ∈ l := by
  induction l with
  | nil => simp [List.lookup] at h
  | cons p rest ih =>
    obtain ⟨pk, pv⟩ := p
    by_cases hk : k = pk
    · subst hk
      rw [lookup_cons_self] at h
      cases h
      exact List.mem_cons_self _ _
    · rw [lookup_cons_ne hk] at h
      exact List.mem_cons_of_mem _ (ih h)

theorem lookup_eq_some_of_mem {β : Type} {l : List (String × β)}
    (hn : (l.map Prod.fst).Nodup) {k : String} {v : β} (hm : (k, v) ∈ l) :
    l.lookup k = some v := by
  induction l with
  | nil => simp at hm
  | cons p rest ih =>
    obtain ⟨pk, pv⟩ := p
    simp only [List.map_cons, List.nodup_cons] at hn
    obtain ⟨hnk, hrest⟩ := hn
    rcases List.mem_cons.1 hm with heq | hmem
    · cases heq
      exact lookup_cons_self _ _ _
    · have hk : k ≠ pk := by
        rintro rfl
        exact hnk (List.mem_map.2 ⟨(k, v), hmem, rfl⟩)
      rw [lookup_cons_ne hk]
      exact ih hrest hmem

theorem perm_of_lookup_eq {l₁ l₂ : Filters} (h₁ : (l₁.map Prod.fst).Nodup)
    (h₂ : (l₂.map Prod.fst).Nodup) (h : ∀ k, l₁.lookup k = l₂.lookup k) :
    l₁.Perm l₂ := by
  rw [List.perm_ext_iff_of_nodup (List.Nodup.of_map _ h₁) (List.Nodup.of_map _ h₂)]
  intro p
  obtain ⟨k, v⟩ := p
  constructor
  · intro hm
    exact mem_of_lookup_eq_some ((h k) ▸ lookup_eq_some_of_mem h₁ hm)
  · intro hm
    exact mem_of_lookup_eq_some ((h k).symm ▸ lookup_eq_some_of_mem h₂ hm)

/-- Two key-sorted association lists with the same entries and duplicate-free
keys are equal. -/
theorem eq_of_perm_of_sorted_keys : ∀ {l₁ l₂ : Filters},
    l₁.Perm l₂ → l₁.Pairwise (fun a b => a.1 ≤ b.1) →
    l₂.Pairwise (fun a b => a.1 ≤ b.1) → (l₁.map Prod.fst).Nodup → l₁ = l₂ := by
  intro l₁
  induction l₁ with
  | nil =>
    intro l₂ hp _ _ _
    exact (List.perm_nil.1 hp.symm).symm
  | cons a t₁ ih =>
    intro l₂ hp hs₁ hs₂ hn
    cases l₂ with
    | nil => exact absurd hp.symm (by simp)
    | cons b t₂ =>
      have hab : a = b := by
        by_contra hne
        have hat₂ : a ∈ t₂ := by
          rcases List.mem_cons.1 (hp.subset (List.mem_cons_self a t₁)) with h | h
          · exact absurd h hne
          · exact h
        have hbt₁ : b ∈ t₁ := by
          rcases List.mem_cons.1 (hp.symm.subset (List.mem_cons_self b t₂)) with h | h
          · exact absurd h.symm hne
          · exact h
        have h₁ : a.1 ≤ b.1 := (List.pairwise_cons.1 hs₁).1 b hbt₁
        have h₂ : b.1 ≤ a.1 := (List.pairwise_cons.1 hs₂).1 a hat₂
        have hkey : a.1 = b.1 := le_antisymm h₁ h₂
        simp only [List.map_cons, List.nodup_cons] at hn
        exact hn.1 (List.mem_map.2 ⟨b, hbt₁, hkey.symm⟩)
      subst hab
      have ht : t₁ = t₂ := by
        refine ih hp.cons_inv (List.pairwise_cons.1 hs₁).2 (List.pairwise_cons.1 hs₂).2 ?_
        simp only [List.map_cons, List.nodup_cons] at hn
        exact hn.2
      rw [ht]

/-- Sorting by key is invariant under permutation when keys are
duplicate-free. -/
theorem mergeSort_keys_invariant {l₁ l₂ : Filters} (hp : l₁.Perm l₂)
    (h₁ : (l₁.map Prod.fst).Nodup) :
    l₁.mergeSort (fun a b => decide (a.1 ≤ b.1)) =
      l₂.mergeSort (fun a b => decide (a.1 ≤ b.1)) := by
  have htrans : ∀ a b c : String × JVal, decide (a.1 ≤ b.1) = true →
      decide (b.1 ≤ c.1) = true → decide (a.1 ≤ c.1) = true := fun a b c hab hbc =>
    decide_eq_true (le_trans (of_decide_eq_true hab) (of_decide_eq_true hbc))
  have htotal : ∀ a b : String × JVal,
      (decide (a.1 ≤ b.1) || decide (b.1 ≤ a.1)) = true := fun a b => by
    simpa using le_total a.1 b.1
  have hsort := fun l : Filters =>
    (@List.sorted_mergeSort (String × JVal) (fun a b => decide (a.1 ≤ b.1))
      htrans htotal l).imp (fun h => of_decide_eq_true h)
  refine eq_of_perm_of_sorted_keys ?_ (hsort l₁) (hsort l₂) ?_
  · exact (List.mergeSort_perm l₁ _).trans (hp.trans (List.mergeSort_perm l₂ _).symm)
  · exact (((List.mergeSort_perm l₁ _).map Prod.fst).nodup_iff).2 h₁

/-- C5: the search-cache key is invariant to filter enumeration order — for
two duplicate-free filter mappings that are equal as mappings (identical
lookups), `get_search_results` and `set_search_results` canonicalize to the
same sorted serialization and so derive and use the identical cache key. -/
theorem C5_filter_order_invariant (query : String) (f₁ f₂ : Filters)
    (m : VectorCacheManager) (s : Store) (now : Nat)
    (results : List SearchResult) (ttl : Nat)
    (h₁ : (f₁.map Prod.fst).Nodup) (h₂ : (f₂.map Prod.fst).Nodup)
    (h : ∀ k, f₁.lookup k = f₂.lookup k) :
    searchCacheKey query (some f₁) = searchCacheKey query (some f₂) ∧
    get_search_results m s now query (some f₁) =
      get_search_results m s now query (some f₂) ∧
    set_search_results m s now query results (some f₁) ttl =
      set_search_results m s now query results (some f₂) ttl := by
  have hms := mergeSort_keys_invariant (perm_of_lookup_eq h₁ h₂ h) h₁
  have hkey : searchCacheKey query (some f₁) = searchCacheKey query (some f₂) := by
    simp only [searchCacheKey, searchCacheStr, dumpObjSorted, Option.getD_some]
    rw [hms]
  exact ⟨hkey, by simp [get_search_results, hkey], by simp [set_search_results, hkey]⟩

theorem C5_filter_order_invariant_witness :
    ((([("a", JVal.num 1), ("b", JVal.num 2)] : Filters).map Prod.fst).Nodup ∧
     (([("b", JVal.num 2), ("a", JVal.num 1)] : Filters).map Prod.fst).Nodup ∧
     (∀ k, ([("a", JVal.num 1), ("b", JVal.num 2)] : Filters).lookup k =
       ([("b", JVal.num 2), ("a", JVal.num 1)] : Filters).lookup k)) ∧
    (searchCacheKey "x" (some [("a", JVal.num 1), ("b", JVal.num 2)]) =
       searchCacheKey "x" (some [("b", JVal.num 2), ("a", JVal.num 1)]) ∧
     get_search_results (mkVectorCacheManager true) [] 0 "x"
         (some [("a", JVal.num 1), ("b", JVal.num 2)]) =
       get_search_results (mkVectorCacheManager true) [] 0 "x"
         (some [("b", JVal.num 2), ("a", JVal.num 1)]) ∧
     set_search_results (mkVectorCacheManager true) [] 0 "x" []
         (some [("a", JVal.num 1), ("b", JVal.num 2)]) 600 =
       set_search_results (mkVectorCacheManager true) [] 0 "x" []
         (some [("b", JVal.num 2), ("a", JVal.num 1)]) 600) := by
  have hlook : ∀ k, ([("a", JVal.num 1), ("b", JVal.num 2)] : Filters).lookup k =
      ([("b", JVal.num 2), ("a", JVal.num 1)] : Filters).lookup k := by
    intro k
    by_cases ha : k = "a"
    · subst ha
      rw [lookup_cons_self, lookup_cons_ne (show ("a" : String) ≠ "b" by decide),
        lookup_cons_self]
    · by_cases hb : k = "b"
      · subst hb
        rw [lookup_cons_ne (show ("b" : String) ≠ "a" by decide), lookup_cons_self,
          lookup_cons_self]
      · rw [lookup_cons_ne ha, lookup_cons_ne hb, lookup_cons_ne hb, lookup_cons_ne ha]
  exact ⟨⟨by decide, by decide, hlook⟩,
    C5_filter_order_invariant "x" _ _ (mkVectorCacheManager true) [] 0 [] 600
      (by decide) (by decide) hlook⟩

/-! Filtering helpers for the invalidation claim. -/

theorem lookup_filter_of_pred_true {β : Type} {k : String}
    {p : String × β → Bool} (hp : ∀ v, p (k, v) = true) (s : List (String × β)) :
    (s.filter p).lookup k = s.lookup k := by
  induction s with
  | nil => rfl
  | cons e rest ih =>
    obtain ⟨ek, ev⟩ := e
    rw [List.filter_cons]
    by_cases hk : k = ek
    · subst hk
      rw [hp ev]
      simp [lookup_cons_self]
    · cases hpe : p (ek, ev) with
      | true => rw [if_pos rfl, lookup_cons_ne hk, lookup_cons_ne hk, ih]
      | false => rw [if_neg (by simp), lookup_cons_ne hk, ih]

theorem lookup_filter_of_pred_false {β : Type} {k : String}
    {p : String × β → Bool} (hp : ∀ v, p (k, v) = false) (s : List (String × β)) :
    (s.filter p).lookup k = none := by
  induction s with
  | nil => rfl
  | cons e rest ih =>
    obtain ⟨ek, ev⟩ := e
    rw [List.filter_cons]
    by_cases hk : k = ek
    · subst hk
      rw [hp ev, if_neg (by simp)]
      exact ih
    · cases hpe : p (ek, ev) with
      | true => rw [if_pos rfl, lookup_cons_ne hk]; exact ih
      | false => rw [if_neg (by simp)]; exact ih

theorem mem_storeScanKeys {s : Store} {now : Nat} {pat k : String} :
    k ∈ storeScanKeys s now pat ↔
      ∃ e, (k, e) ∈ s ∧ strLeads pat k = true ∧ now < e.expiresAt := by
  simp only [storeScanKeys, List.mem_map, List.mem_filter]
  constructor
  · rintro ⟨⟨pk, pe⟩, ⟨hmem, hcond⟩, rfl⟩
    rw [Bool.and_eq_true, decide_eq_true_iff] at hcond
    exact ⟨pe, hmem, hcond.1, hcond.2⟩
  · rintro ⟨e, hmem, hlead, hexp⟩
    exact ⟨(k, e), ⟨hmem, by rw [Bool.and_eq_true, decide_eq_true_iff]; exact ⟨hlead, hexp⟩⟩, rfl⟩

theorem storeGet_none_of_not_scanned {s : Store} {now : Nat} {k : String}
    (hlead : strLeads "search:" k = true)
    (hk : k ∉ storeScanKeys s now "search:") : storeGet s now k = none := by
  unfold storeGet
  cases hl : s.lookup k with
  | none => rfl
  | some e =>
    show (if now < e.expiresAt then some e.value else none) = none
    by_cases hexp : now < e.expiresAt
    · exact absurd (mem_storeScanKeys.2 ⟨e, mem_of_lookup_eq_some hl, hlead, hexp⟩) hk
    · rw [if_neg hexp]

theorem charsLead_append (l t : List Char) : charsLead l (l ++ t) = true := by
  induction l with
  | nil => rfl
  | cons a as ih => simp [charsLead, ih]

theorem strLeads_search_key (d : String) :
    strLeads "search:" ("search" ++ ":" ++ d) = true := by
  have h1 : ("search" ++ ":" ++ d).data = "search:".data ++ d.data := by
    rw [String.data_append, String.data_append]
    rw [show "search:".data = "search".data ++ ":".data by decide, List.append_assoc]
  rw [strLeads, h1]
  exact charsLead_append _ _

theorem strLeads_embedding_key_false (d : String) :
    strLeads "search:" ("embedding" ++ ":" ++ d) = false := by
  rw [strLeads, String.data_append, String.data_append,
    show "search:".data = 's' :: "earch:".data by decide,
    show "embedding".data = 'e' :: "mbedding".data by decide]
  simp [charsLead]

/-- The committed contents after invalidation: lookups of non-`"search:"` keys
are untouched. -/
theorem invalidate_lookup_of_not_search (s : Store) (now : Nat) {k : String}
    (hk : strLeads "search:" k = false) :
    (invalidate_search_cache (mkVectorCacheManager true) s now).lookup k = s.lookup k := by
  show (if (storeScanKeys s now "search:").isEmpty = true then s
    else storeDelete s (storeScanKeys s now "search:")).lookup k = s.lookup k
  by_cases hemp : (storeScanKeys s now "search:").isEmpty = true
  · rw [if_pos hemp]
  · rw [if_neg hemp]
    unfold storeDelete
    refine lookup_filter_of_pred_true (fun v => ?_) s
    have hnotin : ¬ k ∈ storeScanKeys s now "search:" := by
      intro hmem
      rcases mem_storeScanKeys.1 hmem with ⟨e, _, hlead, _⟩
      rw [hk] at hlead
      exact Bool.false_ne_true hlead
    simp [hnotin]

/-- C6: invalidation deletes exactly the `"search:"` namespace — afterwards
every key under the `"search:"` prefix reads as absent (so every previously
cached search result is gone), every other key's stored entry is untouched,
and in particular every previously cached embedding is still retrievable
through `get_embedding`. -/
theorem C6_invalidate_only_search_namespace (s : Store) (now : Nat) :
    (∀ k, strLeads "search:" k = true →
      storeGet (invalidate_search_cache (mkVectorCacheManager true) s now) now k = none) ∧
    (∀ k, strLeads "search:" k = false →
      (invalidate_search_cache (mkVectorCacheManager true) s now).lookup k = s.lookup k) ∧
    (∀ query filters, get_search_results (mkVectorCacheManager true)
      (invalidate_search_cache (mkVectorCacheManager true) s now) now query filters = none) ∧
    (∀ text, get_embedding (mkVectorCacheManager true)
        (invalidate_search_cache (mkVectorCacheManager true) s now) now text =
      get_embedding (mkVectorCacheManager true) s now text) := by
  have habsent : ∀ k, strLeads "search:" k = true →
      storeGet (invalidate_search_cache (mkVectorCacheManager true) s now) now k = none := by
    intro k hlead
    show storeGet (if (storeScanKeys s now "search:").isEmpty = true then s
      else storeDelete s (storeScanKeys s now "search:")) now k = none
    by_cases hemp : (storeScanKeys s now "search:").isEmpty = true
    · rw [if_pos hemp]
      refine storeGet_none_of_not_scanned hlead ?_
      rw [List.isEmpty_iff] at hemp
      simp [hemp]
    · rw [if_neg hemp]
      by_cases hk : k ∈ storeScanKeys s now "search:"
      · unfold storeGet storeDelete
        rw [lookup_filter_of_pred_false (fun v => by simp [hk]) s]
      · have hlk : (storeDelete s (storeScanKeys s now "search:")).lookup k = s.lookup k := by
          unfold storeDelete
          exact lookup_filter_of_pred_true (fun v => by simp [hk]) s
        unfold storeGet
        rw [hlk]
        have hbase := @storeGet_none_of_not_scanned s now k hlead hk
        unfold storeGet at hbase
        exact hbase
  refine ⟨habsent, fun k hk => invalidate_lookup_of_not_search s now hk, ?_, ?_⟩
  · intro query filters
    have hkey : strLeads "search:" (searchCacheKey query filters) = true :=
      strLeads_search_key (md5HexOfString (searchCacheStr query filters))
    unfold get_search_results
    rw [habsent _ hkey]
    rfl
  · intro text
    have hkey : strLeads "search:" (generate_cache_key text) = false :=
      strLeads_embedding_key_false (md5HexOfString text)
    unfold get_embedding storeGet
    rw [invalidate_lookup_of_not_search s now hkey]

theorem C8_generation_failure_empty_result_witness :
    generate_embedding (fun _ => some [(1 : ℚ)]) "" = none ∧
    (vector_search (fun _ => some [(1 : ℚ)]) (fun _ _ => 0)
      [⟨1, "buy milk", none, "open", some [2]⟩] "" 5 = [] ∧
     generate_embedding (fun _ => some [(1 : ℚ)]) "" = none) :=
  ⟨rfl, C8_generation_failure_empty_result _ _ _ _ _ rfl⟩

/-! The nearest-neighbour search claim. -/

theorem distLE_trans (dist : List ℚ → List ℚ → ℚ) (q : List ℚ) :
    ∀ a b c : Task, distLE dist q a b = true → distLE dist q b c = true →
      distLE dist q a c = true := fun _ _ _ hab hbc =>
  decide_eq_true (le_trans (of_decide_eq_true hab) (of_decide_eq_true hbc))

theorem distLE_total (dist : List ℚ → List ℚ → ℚ) (q : List ℚ) :
    ∀ a b : Task, (distLE dist q a b || distLE dist q b a) = true := fun a b => by
  simpa [distLE] using le_total (dist q (a.embedding.getD [])) (dist q (b.embedding.getD []))

/-- C1: when embedding generation succeeds (a truthy vector), the search
returns at most `limit` records, each produced from a table row with a
non-null embedding and carrying similarity `1 - d` for that row's distance
`d` to the query embedding, and the output is ordered by ascending distance —
equivalently, since every similarity is `1 - d`, by descending similarity. -/
theorem C1_search_sorted_limited (encode : String → Option (List ℚ))
    (dist : List ℚ → List ℚ → ℚ) (db : List Task) (query : String) (limit : Nat)
    (qe : List ℚ) (hgen : generate_embedding encode query = some qe) (hne : qe ≠ []) :
    (vector_search encode dist db query limit).length ≤ limit ∧
    (∀ r ∈ vector_search encode dist db query limit, ∃ t ∈ db,
      t.embedding.isSome = true ∧ r.id = t.id ∧ r.title = t.title ∧
      r.description = t.description ∧ r.status = t.status ∧
      r.similarity = 1 - dist qe (t.embedding.getD [])) ∧
    (vector_search encode dist db query limit).Pairwise
      (fun r₁ r₂ => r₂.similarity ≤ r₁.similarity) := by
  obtain ⟨x, xs, rfl⟩ : ∃ x xs, qe = x :: xs := by
    cases qe with
    | nil => exact absurd rfl hne
    | cons x xs => exact ⟨x, xs, rfl⟩
  have hred : vector_search encode dist db query limit =
      (((db.filter (fun t => t.embedding.isSome)).mergeSort
          (distLE dist (x :: xs))).take limit).map (fun t =>
        { id := t.id, title := t.title, description := t.description,
          status := t.status,
          similarity := 1 - dist (x :: xs) (t.embedding.getD []) }) := by
    unfold vector_search
    rw [hgen]
    rfl
  rw [hred]
  refine ⟨?_, ?_, ?_⟩
  · rw [List.length_map, List.length_take]
    exact Nat.min_le_left _ _
  · intro r hr
    rcases List.mem_map.1 hr with ⟨t, ht, rfl⟩
    have hsorted := List.mem_of_mem_take ht
    have hrows := (List.mergeSort_perm (db.filter (fun t => t.embedding.isSome))
      (distLE dist (x :: xs))).mem_iff.1 hsorted
    rcases List.mem_filter.1 hrows with ⟨hdb, hsome⟩
    exact ⟨t, hdb, hsome, rfl, rfl, rfl, rfl, rfl⟩
  · have hsorted := @List.sorted_mergeSort Task (distLE dist (x :: xs))
      (distLE_trans dist (x :: xs)) (distLE_total dist (x :: xs))
      (db.filter (fun t => t.embedding.isSome))
    have htake := List.Pairwise.sublist (List.take_sublist limit _) hsorted
    refine List.Pairwise.map _ ?_ htake
    intro a b hab
    exact sub_le_sub_left (of_decide_eq_true hab) 1

theorem C1_search_sorted_limited_witness :
    generate_embedding (fun _ => some [(1 : ℚ)]) "shopping" = some [(1 : ℚ)] ∧
    ([(1 : ℚ)] ≠ []) ∧
    ((vector_search (fun _ => some [(1 : ℚ)]) (fun _ _ => 0)
        [⟨1, "groceries", none, "open", some [2]⟩] "shopping" 3).length ≤ 3 ∧
     (∀ r ∈ vector_search (fun _ => some [(1 : ℚ)]) (fun _ _ => 0)
        [⟨1, "groceries", none, "open", some [2]⟩] "shopping" 3,
       ∃ t ∈ [(⟨1, "groceries", none, "open", some [2]⟩ : Task)],
         t.embedding.isSome = true ∧ r.id = t.id ∧ r.title = t.title ∧
         r.description = t.description ∧ r.status = t.status ∧
         r.similarity = 1 - (fun (_ _ : List ℚ) => (0 : ℚ)) [(1 : ℚ)] (t.embedding.getD [])) ∧
     (vector_search (fun _ => some [(1 : ℚ)]) (fun _ _ => 0)
        [⟨1, "groceries", none, "open", some [2]⟩] "shopping" 3).Pairwise
       (fun r₁ r₂ => r₂.similarity ≤ r₁.similarity)) :=
  ⟨rfl, by simp,
    C1_search_sorted_limited (fun _ => some [(1 : ℚ)]) (fun _ _ => 0)
      [⟨1, "groceries", none, "open", some [2]⟩] "shopping" 3 [(1 : ℚ)] rfl (by simp)⟩

/-! The backfill claim: atomic commit on store failure, skip on generation
failure. -/

theorem truthyCount_cons (encode : String → Option (List ℚ)) (t : Task)
    (rest : List Task) :
    truthyCount encode (t :: rest) =
      (if genTruthy encode t then 1 else 0) + truthyCount encode rest := by
  by_cases hg : genTruthy encode t <;>
    simp [truthyCount, List.filter_cons, hg, Nat.add_comm]

theorem backfillLoop_fail_in_range (encode : String → Option (List ℚ)) (n : Nat) :
    ∀ (ts txDB : List Task) (count opIdx : Nat),
      opIdx ≤ n → n < opIdx + truthyCount encode ts →
      backfillLoop encode (some n) ts txDB count opIdx = none := by
  intro ts
  induction ts with
  | nil =>
    intro txDB count opIdx h1 h2
    simp [truthyCount] at h2
    omega
  | cons t rest ih =>
    intro txDB count opIdx h1 h2
    rw [truthyCount_cons] at h2
    by_cases hg : genTruthy encode t
    · rw [if_pos hg] at h2
      by_cases hfail : n = opIdx
      · simp [backfillLoop, hg, opFails, hfail]
      · have hbeq : (n == opIdx) = false := by simpa using hfail
        simp only [backfillLoop, hg, opFails, hbeq, if_true, Bool.false_eq_true,
          if_false]
        exact ih _ _ _ (by omega) (by omega)
    · rw [if_neg hg] at h2
      simp only [backfillLoop, hg, Bool.false_eq_true, if_false]
      exact ih _ _ _ h1 (by omega)

theorem backfillLoop_none_eq (encode : String → Option (List ℚ)) :
    ∀ (ts txDB : List Task) (count opIdx : Nat),
      backfillLoop encode none ts txDB count opIdx =
        some (applyAll encode txDB ts, count + truthyCount encode ts,
          opIdx + truthyCount encode ts) := by
  intro ts
  induction ts with
  | nil => intro txDB count opIdx; simp [backfillLoop, applyAll, truthyCount]
  | cons t rest ih =>
    intro txDB count opIdx
    rw [truthyCount_cons]
    by_cases hg : genTruthy encode t
    · simp only [backfillLoop, applyAll, hg, opFails, if_true, if_pos rfl]
      rw [ih]
      simp [Nat.add_assoc, Nat.add_comm 1 _]
    · simp only [backfillLoop, applyAll, hg, Bool.false_eq_true]
      rw [if_neg (by simp), if_neg (by simp), ih]
      simp

theorem backfillLoop_some_ge (encode : String → Option (List ℚ)) (n : Nat) :
    ∀ (ts txDB : List Task) (count opIdx : Nat),
      opIdx + truthyCount encode ts ≤ n →
      backfillLoop encode (some n) ts txDB count opIdx =
        backfillLoop encode none ts txDB count opIdx := by
  intro ts
  induction ts with
  | nil => intro txDB count opIdx _; rfl
  | cons t rest ih =>
    intro txDB count opIdx h
    rw [truthyCount_cons] at h
    by_cases hg : genTruthy encode t
    · rw [if_pos hg] at h
      have hbeq : (n == opIdx) = false := by
        simp only [beq_eq_false_iff_ne, ne_eq]
        omega
      simp only [backfillLoop, hg, opFails, hbeq, if_true, Bool.false_eq_true,
        if_false]
      exact ih _ _ _ (by omega)
    · rw [if_neg hg] at h
      simp only [backfillLoop, hg, Bool.false_eq_true, if_false]
      exact ih _ _ _ (by omega)

theorem genTruthy_exists_some {encode : String → Option (List ℚ)} {t : Task}
    (hg : genTruthy encode t = true) :
    ∃ l, generate_embedding encode (taskText t.title t.description) = some l := by
  unfold genTruthy at hg
  cases hgen : generate_embedding encode (taskText t.title t.description) with
  | none => rw [hgen] at hg; exact absurd hg (by simp [embTruthy])
  | some l => exact ⟨l, rfl⟩

/-- Rows whose id is untouched by every truthy row of `ts` survive `applyAll`
unchanged. -/
theorem applyAll_preserves (encode : String → Option (List ℚ)) :
    ∀ (ts txDB : List Task) (w : Task), w ∈ txDB →
      (∀ t' ∈ ts, t'.id = w.id → genTruthy encode t' = false) →
      w ∈ applyAll encode txDB ts := by
  intro ts
  induction ts with
  | nil => intro txDB w hw _; exact hw
  | cons t rest ih =>
    intro txDB w hw hno
    by_cases hg : genTruthy encode t
    · have hne : t.id ≠ w.id := by
        intro he
        rw [hno t (List.mem_cons_self t rest) he] at hg
        exact Bool.false_ne_true hg
      simp only [applyAll, hg, if_true, if_pos rfl]
      refine ih _ w ?_ (fun t' ht' he => hno t' (List.mem_cons_of_mem _ ht') he)
      unfold applyUpdate
      exact List.mem_map.2 ⟨w, hw, by rw [if_neg (fun h => hne h.symm)]⟩
    · simp only [applyAll, hg, Bool.false_eq_true]
      rw [if_neg (by simp)]
      exact ih _ w hw (fun t' ht' he => hno t' (List.mem_cons_of_mem _ ht') he)

/-- A selected row with a truthy generated embedding ends up updated in the
result of `applyAll`, provided the selected ids are duplicate-free. -/
theorem applyAll_updates (encode : String → Option (List ℚ)) :
    ∀ (ts txDB : List Task) (u : Task), u ∈ ts → u ∈ txDB →
      genTruthy encode u = true → (ts.map Task.id).Nodup →
      { u with embedding := generate_embedding encode (taskText u.title u.description) } ∈
        applyAll encode txDB ts := by
  intro ts
  induction ts with
  | nil => intro txDB u hu; simp at hu
  | cons t rest ih =>
    intro txDB u hu hutx hg hnodup
    simp only [List.map_cons, List.nodup_cons] at hnodup
    obtain ⟨hhead, hrest⟩ := hnodup
    rcases List.mem_cons.1 hu with heq | hmem
    · subst heq
      obtain ⟨l, hl⟩ := genTruthy_exists_some hg
      simp only [applyAll, hg, if_true, if_pos rfl]
      refine applyAll_preserves encode rest _ _ ?_ ?_
      · unfold applyUpdate
        refine List.mem_map.2 ⟨u, hutx, ?_⟩
        rw [if_pos rfl, hl]
        rfl
      · intro t' ht' he
        exact absurd (List.mem_map.2 ⟨t', ht', he⟩) hhead
    · by_cases hgt : genTruthy encode t
      · simp only [applyAll, hgt, if_true, if_pos rfl]
        refine ih _ u hmem ?_ hg hrest
        have hne : u.id ≠ t.id := fun he => hhead (he ▸ List.mem_map.2 ⟨u, hmem, rfl⟩)
        unfold applyUpdate
        exact List.mem_map.2 ⟨u, hutx, by rw [if_neg hne]⟩
      · simp only [applyAll, hgt, Bool.false_eq_true]
        rw [if_neg (by simp)]
        exact ih _ u hmem hutx hg hrest

/-- C3: `update_all_embeddings` commits all-or-nothing at the store level —
any cursor failure (on the `SELECT`, on any `UPDATE`, or on the `commit`)
rolls the whole invocation back to the original table and reports a count of
`0` — while a generation failure for an individual selected record merely
skips it: the record keeps its missing embedding, it is not counted, and
every other selected record with a truthy generated embedding is still
updated and committed. -/
theorem C3_backfill_atomic_commit_and_skip (encode : String → Option (List ℚ))
    (db : List Task) (n : Nat) (hids : (db.map Task.id).Nodup)
    (hn : n ≤ 1 + truthyCount encode (missingTasks db)) :
    update_all_embeddings encode db (some n) = (db, 0) ∧
    (update_all_embeddings encode db none).2 = truthyCount encode (missingTasks db) ∧
    (∀ t ∈ db, t.embedding = none → genTruthy encode t = false →
      t ∈ (update_all_embeddings encode db none).1) ∧
    (∀ u ∈ db, u.embedding = none → genTruthy encode u = true →
      { u with embedding := generate_embedding encode (taskText u.title u.description) } ∈
        (update_all_embeddings encode db none).1) := by
  have hmissSub : (missingTasks db).Sublist db := List.filter_sublist db
  have hmissNodup : ((missingTasks db).map Task.id).Nodup :=
    List.Nodup.sublist (hmissSub.map Task.id) hids
  have hnone : update_all_embeddings encode db none =
      (applyAll encode db (missingTasks db), truthyCount encode (missingTasks db)) := by
    unfold update_all_embeddings
    rw [backfillLoop_none_eq]
    simp [opFails]
  refine ⟨?_, by rw [hnone], ?_, ?_⟩
  · rcases Nat.lt_or_ge n 1 with h0 | h1
    · have hz : n = 0 := by omega
      subst hz
      simp [update_all_embeddings, opFails]
    · have hbeq : (n == 0) = false := by
        simp only [beq_eq_false_iff_ne, ne_eq]
        omega
      rcases Nat.lt_or_ge n (1 + truthyCount encode (missingTasks db)) with hlt | hge
      · unfold update_all_embeddings
        rw [backfillLoop_fail_in_range encode n _ _ _ _ h1 (by omega)]
        simp [opFails, hbeq]
      · have hcommit : n = 1 + truthyCount encode (missingTasks db) := by omega
        unfold update_all_embeddings
        rw [backfillLoop_some_ge encode n _ _ _ _ (by omega), backfillLoop_none_eq]
        have hfin : (n == 1 + truthyCount encode (missingTasks db)) = true := by
          simpa using hcommit
        simp [opFails, hbeq, hfin]
  · intro t htdb hemb hg
    rw [hnone]
    refine applyAll_preserves encode _ db t htdb ?_
    intro t' ht' he
    have ht'db : t' ∈ db := hmissSub.subset ht'
    have : t' = t := List.inj_on_of_nodup_map hids ht'db htdb he
    subst this
    exact hg
  · intro u hudb hemb hg
    rw [hnone]
    refine applyAll_updates encode _ db u ?_ hudb hg hmissNodup
    exact List.mem_filter.2 ⟨hudb, by simp [hemb]⟩

theorem C3_backfill_atomic_commit_and_skip_witness :
    ((fixtureDB.map Task.id).Nodup ∧
     1 ≤ 1 + truthyCount fixtureEncode (missingTasks fixtureDB)) ∧
    (update_all_embeddings fixtureEncode fixtureDB (some 1) = (fixtureDB, 0) ∧
     (update_all_embeddings fixtureEncode fixtureDB none).2 =
       truthyCount fixtureEncode (missingTasks fixtureDB) ∧
     (∀ t ∈ fixtureDB, t.embedding = none → genTruthy fixtureEncode t = false →
       t ∈ (update_all_embeddings fixtureEncode fixtureDB none).1) ∧
     (∀ u ∈ fixtureDB, u.embedding = none → genTruthy fixtureEncode u = true →
       { u with embedding :=
           generate_embedding fixtureEncode (taskText u.title u.description) } ∈
         (update_all_embeddings fixtureEncode fixtureDB none).1)) :=
  ⟨⟨by decide, by omega⟩,
    C3_backfill_atomic_commit_and_skip fixtureEncode fixtureDB 1 (by decide) (by omega)⟩

end VectorService
